import Mathlib

/-!
# Status walk of the ADDB gmap / smap store

A shallow embedding of `src/libaddb/addb-gmap-status.c` (the functions
`addb_gmap_status_partition`, `addb_gmap_status` and `addb_gmap_status_tiles`)
and of the horizon accessors declared in `src/libaddb/addb-smap.h`.

Conventions of the embedding:

* a C `int` result is an `Int`; no arithmetic is done on results;
* `unsigned long long` is a `Nat`, reduced `% 2^64` where it is printed;
* a nullable pointer is an `Option`;
* a callback owns some state `σ` (what `cb_data` points to and whatever else it
  touches); an invocation is a function `σ → ... → Int × σ`;
* functions that the file calls but does not define (`cm_prefix_pushf`,
  `cm_prefix_end`, `addb_tiled_status`, `addb_largefile_status`, ...) and the
  constant `ADDB_GMAP_PARTITIONS_MAX` are fields of the record `Addbp`.
-/

namespace Addb

/-! ## Data model -/

/-- The type `addb_status_callback`: called as `(*cb)(cb_data, name, value)`;
the value is a `char const*` and may be a null pointer. -/
abbrev addb_status_callback (σ : Type) := σ → String → Option String → Int × σ

/-- One partition slot (`addb_gmap_partition`, same fields as
`addb_smap_partition` of `addb-smap.h`). -/
structure addb_gmap_partition (Td : Type) where
  /-- Malloc'ed copy of the file name; `none` is the null pointer. -/
  part_path : Option String
  /-- The tile manager of the file; `none` until the partition is opened. -/
  part_td : Option Td
  /-- The virtual file size, an `unsigned long long`. -/
  part_size : Nat

/-- The store (`addb_gmap`): the fields the status walk reads, and the
partition count of the sibling `addb_smap` (`sm_partition_n`). -/
structure addb_gmap (Td Lf : Type) where
  /-- Index of first unoccupied partition with no higher occupied partition. -/
  gm_partition_n : Nat
  /-- The partition table, indexed by slot. -/
  gm_partition : Nat → addb_gmap_partition Td
  /-- The large-file handle. -/
  gm_lfhandle : Lf

/-- What `addb-gmap-status.c` uses and does not define: the partition limit,
the two `cm_prefix` operations and the four delegated walks. A delegated walk
receives the callback and the callback state, as in C. -/
structure Addbp (σ Td Lf Pre : Type) where
  ADDB_GMAP_PARTITIONS_MAX : Nat
  /-- `cm_prefix_pushf(prefix, fmt, ...)`, applied to the formatted segment. -/
  cm_prefix_pushf : Pre → String → Pre
  /-- `cm_prefix_end(prefix, field)`: the full name, a C string. -/
  cm_prefix_end : Pre → String → String
  addb_tiled_status : Option Td → Pre → addb_status_callback σ → σ → Int × σ
  addb_largefile_status : Lf → Pre → addb_status_callback σ → σ → Int × σ
  addb_tiled_status_tiles : Option Td → Pre → addb_status_callback σ → σ → Int × σ
  addb_largefile_status_tiles : Lf → Pre → addb_status_callback σ → σ → Int × σ

/-- The value of `EINVAL` in `<errno.h>`. -/
def EINVAL : Int := 22

/-! ## C library formatting -/

/-- The output of `snprintf(buf, size, "%llu", v)`: the decimal digits of the
`unsigned long long`, cut to the `size - 1` characters that fit before the
terminator. -/
def snprintf_llu (size : Nat) (v : Nat) : String :=
  String.mk ((Nat.toDigits 10 (v % 2 ^ 64)).take (size - 1))

/-- The cast `(int)part_i` of a `size_t`: the low 32 bits, read as signed. -/
def int_of_size_t (n : Nat) : Int :=
  if n % 2 ^ 32 < 2 ^ 31 then ((n % 2 ^ 32 : Nat) : Int) else ((n % 2 ^ 32 : Nat) : Int) - 2 ^ 32

/-- The output of the conversion `%d` for an `int`. -/
def fmt_d (z : Int) : String :=
  if z < 0 then "-" ++ String.mk (Nat.toDigits 10 z.natAbs) else String.mk (Nat.toDigits 10 z.natAbs)

/-- The segment formatted by `"partition.%d", (int)part_i`. -/
def partition_segment (part_i : Nat) : String :=
  "partition." ++ fmt_d (int_of_size_t part_i)

/-! ## The functions of `addb-gmap-status.c` -/

section Walk

variable {σ Td Lf Pre : Type}

/-- The function `addb_gmap_status_partition` (lines 19-33). -/
def addb_gmap_status_partition (X : Addbp σ Td Lf Pre) (part : addb_gmap_partition Td)
    (pre : Pre) (cb : addb_status_callback σ) (s : σ) : Int × σ :=
  let r1 := cb s (X.cm_prefix_end pre "path") part.part_path
  if r1.1 ≠ 0 then r1
  else
    let num_buf := snprintf_llu 42 part.part_size
    let r2 := cb r1.2 (X.cm_prefix_end pre "size") (some num_buf)
    if r2.1 ≠ 0 then r2
    else X.addb_tiled_status part.part_td pre cb r2.2

/-- The loop of `addb_gmap_status` (lines 53-60) with the statement after it
(line 61): `n` iterations are left, the next slot is `part_i`. -/
def addb_gmap_status_from (X : Addbp σ Td Lf Pre) (gm : addb_gmap Td Lf) (gmap_pre : Pre)
    (cb : addb_status_callback σ) : Nat → Nat → σ → Int × σ
  | 0, _, s => X.addb_largefile_status gm.gm_lfhandle gmap_pre cb s
  | n + 1, part_i, s =>
    let part := gm.gm_partition part_i
    if part.part_path.isNone || part.part_td.isNone then
      addb_gmap_status_from X gm gmap_pre cb n (part_i + 1) s
    else
      let part_pre := X.cm_prefix_pushf gmap_pre (partition_segment part_i)
      let r := addb_gmap_status_partition X part part_pre cb s
      if r.1 ≠ 0 then r
      else addb_gmap_status_from X gm gmap_pre cb n (part_i + 1) r.2

/-- The function `addb_gmap_status` (lines 42-62); `gm = none` is the null
handle. -/
def addb_gmap_status (X : Addbp σ Td Lf Pre) (gm : Option (addb_gmap Td Lf)) (pre : Pre)
    (cb : addb_status_callback σ) (s : σ) : Int × σ :=
  match gm with
  | none => (EINVAL, s)
  | some g =>
    let gmap_pre := X.cm_prefix_pushf pre "gmap"
    addb_gmap_status_from X g gmap_pre cb X.ADDB_GMAP_PARTITIONS_MAX 0 s

/-- The loop of `addb_gmap_status_tiles` (lines 82-89) with the statement
after it (line 90). -/
def addb_gmap_status_tiles_from (X : Addbp σ Td Lf Pre) (gm : addb_gmap Td Lf) (gmap_pre : Pre)
    (cb : addb_status_callback σ) : Nat → Nat → σ → Int × σ
  | 0, _, s => X.addb_largefile_status_tiles gm.gm_lfhandle gmap_pre cb s
  | n + 1, part_i, s =>
    let part := gm.gm_partition part_i
    if part.part_path.isNone then
      addb_gmap_status_tiles_from X gm gmap_pre cb n (part_i + 1) s
    else
      let part_pre := X.cm_prefix_pushf gmap_pre (partition_segment part_i)
      let r := X.addb_tiled_status_tiles part.part_td part_pre cb s
      if r.1 ≠ 0 then r
      else addb_gmap_status_tiles_from X gm gmap_pre cb n (part_i + 1) r.2

/-- The function `addb_gmap_status_tiles` (lines 71-91). -/
def addb_gmap_status_tiles (X : Addbp σ Td Lf Pre) (gm : Option (addb_gmap Td Lf)) (pre : Pre)
    (cb : addb_status_callback σ) (s : σ) : Int × σ :=
  match gm with
  | none => (EINVAL, s)
  | some g =>
    let gmap_pre := X.cm_prefix_pushf pre "gmap"
    addb_gmap_status_tiles_from X g gmap_pre cb X.ADDB_GMAP_PARTITIONS_MAX 0 s

end Walk

/-! ## Observing a walk

The trace of a walk lists what it invoked, in order, with each result. A walk
is observed by running the same function with a callback and delegated walks
that append to the trace; a delegated walk is one entry, whatever it invokes
itself. -/

/-- Something a status walk invokes. -/
inductive Call (Td Lf Pre : Type) where
  | callback (name : String) (value : Option String)
  | tiled_status (td : Option Td) (pre : Pre)
  | largefile_status (lf : Lf) (pre : Pre)
  | tiled_status_tiles (td : Option Td) (pre : Pre)
  | largefile_status_tiles (lf : Lf) (pre : Pre)
  deriving DecidableEq

/-- An invocation and the value it returned. -/
structure Entry (Td Lf Pre : Type) where
  call : Call Td Lf Pre
  res : Int
  deriving DecidableEq

/-- Whether the call is the large-file status walk. -/
def Call.is_largefile_status {Td Lf Pre : Type} : Call Td Lf Pre → Bool
  | .largefile_status _ _ => true
  | _ => false

section Trace

variable {σ Td Lf Pre : Type}

/-- Append an invocation and its result to the trace. -/
def record (c : Call Td Lf Pre) (r : Int × σ) (log : List (Entry Td Lf Pre)) :
    Int × (σ × List (Entry Td Lf Pre)) :=
  (r.1, (r.2, log ++ [⟨c, r.1⟩]))

/-- The callback `cb`, recording each invocation. -/
def traced_cb (cb : addb_status_callback σ) :
    addb_status_callback (σ × List (Entry Td Lf Pre)) :=
  fun sl name value => record (.callback name value) (cb sl.1 name value) sl.2

/-- The environment `X`, recording each delegated walk as one entry; the
delegated walk itself runs with the callback `cb`. -/
def traced (X : Addbp σ Td Lf Pre) (cb : addb_status_callback σ) :
    Addbp (σ × List (Entry Td Lf Pre)) Td Lf Pre where
  ADDB_GMAP_PARTITIONS_MAX := X.ADDB_GMAP_PARTITIONS_MAX
  cm_prefix_pushf := X.cm_prefix_pushf
  cm_prefix_end := X.cm_prefix_end
  addb_tiled_status := fun td pre _ sl =>
    record (.tiled_status td pre) (X.addb_tiled_status td pre cb sl.1) sl.2
  addb_largefile_status := fun lf pre _ sl =>
    record (.largefile_status lf pre) (X.addb_largefile_status lf pre cb sl.1) sl.2
  addb_tiled_status_tiles := fun td pre _ sl =>
    record (.tiled_status_tiles td pre) (X.addb_tiled_status_tiles td pre cb sl.1) sl.2
  addb_largefile_status_tiles := fun lf pre _ sl =>
    record (.largefile_status_tiles lf pre) (X.addb_largefile_status_tiles lf pre cb sl.1) sl.2

/-- The observed run of `addb_gmap_status`: result, final callback state and
trace. -/
def status_run (X : Addbp σ Td Lf Pre) (gm : Option (addb_gmap Td Lf)) (pre : Pre)
    (cb : addb_status_callback σ) (s : σ) : Int × (σ × List (Entry Td Lf Pre)) :=
  addb_gmap_status (traced X cb) gm pre (traced_cb cb) (s, [])

/-- The observed run of `addb_gmap_status_tiles`. -/
def status_tiles_run (X : Addbp σ Td Lf Pre) (gm : Option (addb_gmap Td Lf)) (pre : Pre)
    (cb : addb_status_callback σ) (s : σ) : Int × (σ × List (Entry Td Lf Pre)) :=
  addb_gmap_status_tiles (traced X cb) gm pre (traced_cb cb) (s, [])

/-- A partition is occupied when it has a path and a tile manager. -/
def occupied (part : addb_gmap_partition Td) : Bool :=
  part.part_path.isSome && part.part_td.isSome

/-- The three invocations a partition is reported with, in order. -/
def partition_calls (X : Addbp σ Td Lf Pre) (part : addb_gmap_partition Td) (pre : Pre) :
    List (Call Td Lf Pre) :=
  [.callback (X.cm_prefix_end pre "path") part.part_path,
   .callback (X.cm_prefix_end pre "size") (some (snprintf_llu 42 part.part_size)),
   .tiled_status part.part_td pre]

/-- The invocations of a complete status walk of the store: the occupied
slots below the partition limit in ascending order, then the large-file
walk. -/
def status_calls (X : Addbp σ Td Lf Pre) (gm : addb_gmap Td Lf) (pre : Pre) :
    List (Call Td Lf Pre) :=
  (((List.range X.ADDB_GMAP_PARTITIONS_MAX).filter fun i => occupied (gm.gm_partition i)).flatMap
      fun i => partition_calls X (gm.gm_partition i)
        (X.cm_prefix_pushf (X.cm_prefix_pushf pre "gmap") (partition_segment i)))
    ++ [.largefile_status gm.gm_lfhandle (X.cm_prefix_pushf pre "gmap")]

end Trace

/-! ## A walk as a list of invocations

`run_calls` performs a list of invocations in order and stops after the first
one with a nonzero result. The observed walks are shown equal to `run_calls`
on the list of invocations of a complete walk. -/

section Calls

variable {σ Td Lf Pre : Type}

/-- Perform one invocation on the callback state. -/
def perform (X : Addbp σ Td Lf Pre) (cb : addb_status_callback σ) :
    Call Td Lf Pre → σ → Int × σ
  | .callback name value, s => cb s name value
  | .tiled_status td pre, s => X.addb_tiled_status td pre cb s
  | .largefile_status lf pre, s => X.addb_largefile_status lf pre cb s
  | .tiled_status_tiles td pre, s => X.addb_tiled_status_tiles td pre cb s
  | .largefile_status_tiles lf pre, s => X.addb_largefile_status_tiles lf pre cb s

/-- Perform the invocations in order, up to and including the first one whose
result is not zero; the result is that of the last one performed. -/
def run_calls (X : Addbp σ Td Lf Pre) (cb : addb_status_callback σ) :
    List (Call Td Lf Pre) → σ → Int × (σ × List (Entry Td Lf Pre))
  | [], s => (0, (s, []))
  | c :: cs, s =>
    let r := perform X cb c s
    if r.1 ≠ 0 then (r.1, (r.2, [⟨c, r.1⟩]))
    else
      let t := run_calls X cb cs r.2
      (t.1, (t.2.1, ⟨c, r.1⟩ :: t.2.2))

/-- Put a trace in front of the trace of a run. -/
def after (log : List (Entry Td Lf Pre)) (t : Int × (σ × List (Entry Td Lf Pre))) :
    Int × (σ × List (Entry Td Lf Pre)) :=
  (t.1, (t.2.1, log ++ t.2.2))

/-- The invocations of the slots `i, ..., i + n - 1` and of the large-file
walk. -/
def status_calls_from (X : Addbp σ Td Lf Pre) (gm : addb_gmap Td Lf) (gmap_pre : Pre)
    (n i : Nat) : List (Call Td Lf Pre) :=
  (((List.range' i n).filter fun j => occupied (gm.gm_partition j)).flatMap
      fun j => partition_calls X (gm.gm_partition j)
        (X.cm_prefix_pushf gmap_pre (partition_segment j)))
    ++ [.largefile_status gm.gm_lfhandle gmap_pre]

end Calls

/-! ## The walk restricted to the partition count -/

section Restricted

variable {σ Td Lf Pre : Type}

/-- The status walk as `addb_gmap_status`, except that the loop stops at the
partition count `gm_partition_n` instead of the partition limit. -/
def addb_gmap_status_restricted (X : Addbp σ Td Lf Pre) (gm : Option (addb_gmap Td Lf))
    (pre : Pre) (cb : addb_status_callback σ) (s : σ) : Int × σ :=
  match gm with
  | none => (EINVAL, s)
  | some g =>
    let gmap_pre := X.cm_prefix_pushf pre "gmap"
    addb_gmap_status_from X g gmap_pre cb g.gm_partition_n 0 s

/-- The store invariant on the partition count: it is an index into the
partition table or one past its end, and no slot from it on is occupied. -/
def partition_n_invariant (X : Addbp σ Td Lf Pre) (gm : addb_gmap Td Lf) : Prop :=
  gm.gm_partition_n ≤ X.ADDB_GMAP_PARTITIONS_MAX ∧
    ∀ i, gm.gm_partition_n ≤ i → i < X.ADDB_GMAP_PARTITIONS_MAX →
      occupied (gm.gm_partition i) = false

end Restricted

/-! ## Dotted names -/

/-- Modelled from the spec: `cm_prefix_pushf` of libcm, which is not among the
sources. A prefix is the dotted name built so far; pushing a segment appends
the segment and a dot ("a hierarchical dotted-name prefix"). -/
def dotted_pushf (pre : String) (segment : String) : String :=
  pre ++ segment ++ "."

/-- Modelled from the spec: `cm_prefix_end` of libcm, which is not among the
sources. The name of a field is the prefix followed by the field, as in
`store.partition.2.size`. -/
def dotted_end (pre : String) (field : String) : String :=
  pre ++ field

/-! ## The horizon of an smap (`addb-smap.h`) -/

/-- The structure `addb_smap_configuration` (lines 66-77). -/
structure addb_smap_configuration where
  /-- How much memory to initially map for each partition. -/
  gcf_init_map : Nat
  /-- Lock the map in memory if true. -/
  gcf_mlock : Bool

/-- The store `addb_smap` (lines 79-148), without the pointers to the
database handle and to the tile pool and without the directory sync
context. -/
structure addb_smap (Td : Type) where
  sm_cf : addb_smap_configuration
  sm_path : Option String
  sm_base : Option String
  sm_base_n : Nat
  /-- Index of first unoccupied partition with no higher occupied partition. -/
  sm_partition_n : Nat
  sm_partition : Nat → addb_gmap_partition Td
  /-- The state the SMAP would go back to if it used its backup. -/
  sm_horizon : Nat
  /-- Is this SMAP backed up? -/
  sm_backup : Bool
  sm_dir_fd : Int

/-- The error kinds of the spec (section 7). -/
inductive addb_error where
  | InvalidArgument
  | IOError
  | FormatError
  | ProtocolError
  | ResourceExhausted
  deriving DecidableEq

/-- Who invokes the horizon accessor: store-open/recovery, one of the
checkpoint phases of the spec (section 4.4), or code outside the store. -/
inductive horizon_caller where
  | store_open_recovery
  | start_writes
  | finish_writes
  | sync_backup
  | finish_backup
  | sync_directory
  | remove_backup
  | rollback
  | outside
  deriving DecidableEq

/-- Modelled from the spec: who may set the horizon (section 4.5), "only
during store-open/recovery ... and internally by `finish_backup`". -/
def horizon_set_permitted : horizon_caller → Bool
  | .store_open_recovery => true
  | .finish_backup => true
  | _ => false

/-- Modelled from the spec: the body of `addb_smap_horizon`, of which the
sources hold the declaration `unsigned long long addb_smap_horizon(addb_smap*)`
only. Reading the horizon is unrestricted. -/
def addb_smap_horizon {Td : Type} (sm : addb_smap Td) : Nat :=
  sm.sm_horizon

/-- Modelled from the spec: the body of `addb_smap_horizon_set`, of which the
sources hold the declaration
`void addb_smap_horizon_set(addb_smap* sm, unsigned long long horizon)` only.
Following section 4.5, a permitted caller sets the horizon; "any other caller
invoking `set()` is a protocol violation (ProtocolError)" and changes nothing.
The declared result is `void`, so the violation is not a return value of the
C function: the outcome is the store afterwards together with the error
reported, if any. The caller is an argument of the model because the spec
makes the behaviour depend on it. -/
def addb_smap_horizon_set {Td : Type} (caller : horizon_caller) (sm : addb_smap Td)
    (horizon : Nat) : addb_smap Td × Option addb_error :=
  if horizon_set_permitted caller then ({ sm with sm_horizon := horizon }, none)
  else (sm, some addb_error.ProtocolError)

/-! ## A small store, used in examples -/

/-- An environment with four slots and dotted names; every delegated walk
returns 0 and counts one step in the callback state. -/
def example_env : Addbp Nat Nat Nat String where
  ADDB_GMAP_PARTITIONS_MAX := 4
  cm_prefix_pushf := dotted_pushf
  cm_prefix_end := dotted_end
  addb_tiled_status := fun _ _ _ s => (0, s + 1)
  addb_largefile_status := fun _ _ _ s => (0, s + 1)
  addb_tiled_status_tiles := fun _ _ _ s => (0, s + 1)
  addb_largefile_status_tiles := fun _ _ _ s => (0, s + 1)

/-- A store with slots 0 and 2 occupied. -/
def example_store : addb_gmap Nat Nat where
  gm_partition_n := 3
  gm_partition := fun i =>
    if i = 0 then ⟨some "a", some 1, 18446744073709551615⟩
    else if i = 2 then ⟨some "c", some 3, 0⟩
    else ⟨none, none, 0⟩
  gm_lfhandle := 9

/-- A store whose slot 0 is open and whose slot 1 has a path but has not been
opened. -/
def unopened_store : addb_gmap Nat Nat where
  gm_partition_n := 2
  gm_partition := fun i =>
    if i = 0 then ⟨some "a", some 1, 12⟩
    else if i = 1 then ⟨some "b", none, 0⟩
    else ⟨none, none, 0⟩
  gm_lfhandle := 9

/-- A callback that returns 0 and counts one step. -/
def ok_cb : addb_status_callback Nat :=
  fun s _ _ => (0, s + 1)

/-- A callback that fails with 5 on the size of partition 2. -/
def failing_cb : addb_status_callback Nat :=
  fun s name _ => (if name = "gmap.partition.2.size" then 5 else 0, s + 1)

/-- An smap with horizon 3. -/
def example_smap : addb_smap Nat where
  sm_cf := ⟨4096, false⟩
  sm_path := some "smap"
  sm_base := some "smap/s-"
  sm_base_n := 7
  sm_partition_n := 0
  sm_partition := fun _ => ⟨none, none, 0⟩
  sm_horizon := 3
  sm_backup := false
  sm_dir_fd := 5

/-! # Lemmas -/

section CallLemmas

variable {σ Td Lf Pre : Type}

theorem run_calls_append (X : Addbp σ Td Lf Pre) (cb : addb_status_callback σ)
    (a b : List (Call Td Lf Pre)) (s : σ) :
    run_calls X cb (a ++ b) s =
      if (run_calls X cb a s).1 ≠ 0 then run_calls X cb a s
      else after (run_calls X cb a s).2.2 (run_calls X cb b (run_calls X cb a s).2.1) := by
  induction a generalizing s with
  | nil => simp [run_calls, after]
  | cons c cs ih =>
    simp only [List.cons_append, run_calls]
    by_cases h : (perform X cb c s).1 = 0
    · have ih2 := ih (perform X cb c s).2
      by_cases h2 : (run_calls X cb cs (perform X cb c s).2).1 = 0
      · simp [h, h2, after, ih2]
      · simp [h, h2, ih2]
    · simp [h]

theorem status_partition_traced (X : Addbp σ Td Lf Pre) (cb : addb_status_callback σ)
    (part : addb_gmap_partition Td) (pre : Pre) (s : σ) (log : List (Entry Td Lf Pre)) :
    addb_gmap_status_partition (traced X cb) part pre (traced_cb cb) (s, log) =
      after log (run_calls X cb (partition_calls X part pre) s) := by
  simp only [addb_gmap_status_partition, traced, traced_cb, record, partition_calls, run_calls,
    perform, after]
  by_cases h1 : (cb s (X.cm_prefix_end pre "path") part.part_path).1 = 0
  · by_cases h2 : (cb (cb s (X.cm_prefix_end pre "path") part.part_path).2
        (X.cm_prefix_end pre "size") (some (snprintf_llu 42 part.part_size))).1 = 0
    · by_cases h3 : (X.addb_tiled_status part.part_td pre cb
          (cb (cb s (X.cm_prefix_end pre "path") part.part_path).2
            (X.cm_prefix_end pre "size") (some (snprintf_llu 42 part.part_size))).2).1 = 0
      · simp [h1, h2, h3]
      · simp [h1, h2, h3]
    · simp [h1, h2]
  · simp [h1]

theorem status_calls_from_zero (X : Addbp σ Td Lf Pre) (gm : addb_gmap Td Lf) (gmap_pre : Pre)
    (i : Nat) :
    status_calls_from X gm gmap_pre 0 i = [.largefile_status gm.gm_lfhandle gmap_pre] := by
  simp [status_calls_from]

theorem status_calls_from_succ (X : Addbp σ Td Lf Pre) (gm : addb_gmap Td Lf) (gmap_pre : Pre)
    (n i : Nat) :
    status_calls_from X gm gmap_pre (n + 1) i =
      (if occupied (gm.gm_partition i) then
          partition_calls X (gm.gm_partition i) (X.cm_prefix_pushf gmap_pre (partition_segment i))
        else []) ++ status_calls_from X gm gmap_pre n (i + 1) := by
  unfold status_calls_from
  rw [List.range'_succ, List.filter_cons]
  by_cases h : occupied (gm.gm_partition i) = true
  · simp [h]
  · simp [h]

theorem status_calls_eq_from (X : Addbp σ Td Lf Pre) (gm : addb_gmap Td Lf) (pre : Pre) :
    status_calls X gm pre =
      status_calls_from X gm (X.cm_prefix_pushf pre "gmap") X.ADDB_GMAP_PARTITIONS_MAX 0 := by
  simp [status_calls, status_calls_from, List.range_eq_range']

theorem occupied_iff (part : addb_gmap_partition Td) :
    (part.part_path.isNone || part.part_td.isNone) = !occupied part := by
  unfold occupied
  cases part.part_path <;> cases part.part_td <;> rfl

theorem status_from_traced (X : Addbp σ Td Lf Pre) (cb : addb_status_callback σ)
    (gm : addb_gmap Td Lf) (gmap_pre : Pre) (n i : Nat) (s : σ) (log : List (Entry Td Lf Pre)) :
    addb_gmap_status_from (traced X cb) gm gmap_pre (traced_cb cb) n i (s, log) =
      after log (run_calls X cb (status_calls_from X gm gmap_pre n i) s) := by
  induction n generalizing i s log with
  | zero =>
    rw [status_calls_from_zero]
    simp only [addb_gmap_status_from, traced, record, run_calls, perform, after]
    by_cases h : (X.addb_largefile_status gm.gm_lfhandle gmap_pre cb s).1 = 0
    · simp [h]
    · simp [h]
  | succ n ih =>
    rw [status_calls_from_succ]
    simp only [addb_gmap_status_from, occupied_iff]
    by_cases h : occupied (gm.gm_partition i) = true
    · simp only [h, Bool.not_true, Bool.false_eq_true, if_false, if_true]
      rw [run_calls_append]
      have hp : (traced X cb).cm_prefix_pushf = X.cm_prefix_pushf := rfl
      rw [hp, status_partition_traced]
      by_cases h2 : (run_calls X cb (partition_calls X (gm.gm_partition i)
          (X.cm_prefix_pushf gmap_pre (partition_segment i))) s).1 = 0
      · simp [h2, after, ih]
      · simp [h2, after]
    · simp [h, ih]

theorem status_run_eq (X : Addbp σ Td Lf Pre) (cb : addb_status_callback σ)
    (gm : addb_gmap Td Lf) (pre : Pre) (s : σ) :
    status_run X (some gm) pre cb s = run_calls X cb (status_calls X gm pre) s := by
  have hp : (traced X cb).cm_prefix_pushf = X.cm_prefix_pushf := rfl
  have hm : (traced X cb).ADDB_GMAP_PARTITIONS_MAX = X.ADDB_GMAP_PARTITIONS_MAX := rfl
  simp only [status_run, addb_gmap_status, hp, hm, status_from_traced, status_calls_eq_from]
  simp [after]

theorem run_calls_stops (X : Addbp σ Td Lf Pre) (cb : addb_status_callback σ)
    (cs : List (Call Td Lf Pre)) (s : σ) (pre : List (Entry Td Lf Pre)) (e : Entry Td Lf Pre)
    (post : List (Entry Td Lf Pre)) (h : (run_calls X cb cs s).2.2 = pre ++ e :: post)
    (he : e.res ≠ 0) : post = [] ∧ (run_calls X cb cs s).1 = e.res := by
  induction cs generalizing s pre with
  | nil => simp [run_calls] at h
  | cons c cs ih =>
    simp only [run_calls] at h ⊢
    by_cases h0 : (perform X cb c s).1 = 0
    · simp only [h0, ne_eq, not_true_eq_false, if_false] at h ⊢
      cases pre with
      | nil =>
        simp only [List.nil_append, List.cons.injEq] at h
        exact absurd (by rw [← h.1]) he
      | cons p pre =>
        simp only [List.cons_append, List.cons.injEq] at h
        exact ih _ pre h.2
    · simp only [h0, ne_eq, not_false_eq_true, if_true] at h ⊢
      cases pre with
      | nil =>
        simp only [List.nil_append, List.cons.injEq] at h
        exact ⟨h.2.symm, by rw [← h.1]⟩
      | cons p pre =>
        simp at h

theorem run_calls_zero_iff (X : Addbp σ Td Lf Pre) (cb : addb_status_callback σ)
    (cs : List (Call Td Lf Pre)) (s : σ) :
    (run_calls X cb cs s).1 = 0 ↔ ∀ e ∈ (run_calls X cb cs s).2.2, e.res = 0 := by
  induction cs generalizing s with
  | nil => simp [run_calls]
  | cons c cs ih =>
    simp only [run_calls]
    by_cases h0 : (perform X cb c s).1 = 0
    · simp [h0, ih]
    · simp [h0]

theorem run_calls_mem (X : Addbp σ Td Lf Pre) (cb : addb_status_callback σ)
    (cs : List (Call Td Lf Pre)) (s : σ) :
    ∀ e ∈ (run_calls X cb cs s).2.2, e.call ∈ cs := by
  induction cs generalizing s with
  | nil => simp [run_calls]
  | cons c cs ih =>
    simp only [run_calls]
    by_cases h0 : (perform X cb c s).1 = 0
    · intro e he
      simp only [h0, ne_eq, not_true_eq_false, if_false, List.mem_cons] at he
      rcases he with rfl | he
      · simp
      · exact List.mem_cons_of_mem _ (ih _ e he)
    · intro e he
      simp only [h0, ne_eq, not_false_eq_true, if_true, List.mem_singleton] at he
      subst he
      simp

theorem run_calls_reaches_last (X : Addbp σ Td Lf Pre) (cb : addb_status_callback σ)
    (p : Call Td Lf Pre → Bool) (init : List (Call Td Lf Pre)) (c : Call Td Lf Pre) (s : σ)
    (hinit : ∀ d ∈ init, p d = false)
    (h : ∀ e ∈ (run_calls X cb (init ++ [c]) s).2.2, p e.call = false → e.res = 0) :
    (run_calls X cb (init ++ [c]) s).2.2 =
      (init.map fun d => ⟨d, 0⟩) ++ [⟨c, (run_calls X cb (init ++ [c]) s).1⟩] := by
  induction init generalizing s with
  | nil =>
    simp only [List.nil_append, run_calls, List.map_nil]
    by_cases h0 : (perform X cb c s).1 = 0
    · simp [h0]
    · simp [h0]
  | cons d ds ih =>
    simp only [List.cons_append, run_calls] at h ⊢
    by_cases h0 : (perform X cb d s).1 = 0
    · simp only [h0, ne_eq, not_true_eq_false, if_false] at h ⊢
      have ih2 := ih (perform X cb d s).2 (fun x hx => hinit x (List.mem_cons_of_mem _ hx))
        (fun e he => h e (List.mem_cons_of_mem _ he))
      simp only [List.append_eq]
      rw [ih2]
      simp
    · simp only [h0, ne_eq, not_false_eq_true, if_true] at h
      exact absurd (h ⟨d, (perform X cb d s).1⟩ (List.mem_singleton.mpr rfl)
        (hinit d (List.mem_cons_self _ _))) h0

theorem run_calls_zero_log (X : Addbp σ Td Lf Pre) (cb : addb_status_callback σ)
    (cs : List (Call Td Lf Pre)) (s : σ) (h : (run_calls X cb cs s).1 = 0) :
    (run_calls X cb cs s).2.2 = cs.map fun c => ⟨c, 0⟩ := by
  induction cs generalizing s with
  | nil => simp [run_calls]
  | cons c cs ih =>
    simp only [run_calls] at h ⊢
    by_cases h0 : (perform X cb c s).1 = 0
    · simp only [h0, ne_eq, not_true_eq_false, if_false] at h ⊢
      simp [ih _ h]
    · simp only [h0, ne_eq, not_false_eq_true, if_true] at h

/-! ### Observation does not change the walk -/

theorem status_partition_erase (X : Addbp σ Td Lf Pre) (cb : addb_status_callback σ)
    (part : addb_gmap_partition Td) (pre : Pre) (s : σ) (log : List (Entry Td Lf Pre)) :
    ((addb_gmap_status_partition (traced X cb) part pre (traced_cb cb) (s, log)).1,
      (addb_gmap_status_partition (traced X cb) part pre (traced_cb cb) (s, log)).2.1) =
      addb_gmap_status_partition X part pre cb s := by
  simp only [addb_gmap_status_partition, traced, traced_cb, record]
  by_cases h1 : (cb s (X.cm_prefix_end pre "path") part.part_path).1 = 0
  · by_cases h2 : (cb (cb s (X.cm_prefix_end pre "path") part.part_path).2
        (X.cm_prefix_end pre "size") (some (snprintf_llu 42 part.part_size))).1 = 0
    · simp [h1, h2]
    · simp [h1, h2]
  · simp [h1]

theorem status_from_erase (X : Addbp σ Td Lf Pre) (cb : addb_status_callback σ)
    (gm : addb_gmap Td Lf) (gmap_pre : Pre) (n i : Nat) (s : σ) (log : List (Entry Td Lf Pre)) :
    ((addb_gmap_status_from (traced X cb) gm gmap_pre (traced_cb cb) n i (s, log)).1,
      (addb_gmap_status_from (traced X cb) gm gmap_pre (traced_cb cb) n i (s, log)).2.1) =
      addb_gmap_status_from X gm gmap_pre cb n i s := by
  induction n generalizing i s log with
  | zero => simp [addb_gmap_status_from, traced, record]
  | succ n ih =>
    simp only [addb_gmap_status_from]
    by_cases h : ((gm.gm_partition i).part_path.isNone || (gm.gm_partition i).part_td.isNone) = true
    · simp only [h, if_true]
      exact ih _ _ _
    · simp only [h, if_false]
      have hp : (traced X cb).cm_prefix_pushf = X.cm_prefix_pushf := rfl
      rw [hp]
      have he := status_partition_erase X cb (gm.gm_partition i)
        (X.cm_prefix_pushf gmap_pre (partition_segment i)) s log
      rw [← he]
      by_cases h2 : (addb_gmap_status_partition (traced X cb) (gm.gm_partition i)
          (X.cm_prefix_pushf gmap_pre (partition_segment i)) (traced_cb cb) (s, log)).1 = 0
      · simp only [h2, ne_eq, not_true_eq_false, if_false]
        exact ih _ _ _
      · simp [h2]

theorem status_run_erase (X : Addbp σ Td Lf Pre) (cb : addb_status_callback σ)
    (gm : Option (addb_gmap Td Lf)) (pre : Pre) (s : σ) :
    ((status_run X gm pre cb s).1, (status_run X gm pre cb s).2.1) =
      addb_gmap_status X gm pre cb s := by
  cases gm with
  | none => rfl
  | some g => exact status_from_erase X cb g _ _ _ _ _

theorem status_run_fst (X : Addbp σ Td Lf Pre) (cb : addb_status_callback σ)
    (gm : Option (addb_gmap Td Lf)) (pre : Pre) (s : σ) :
    (addb_gmap_status X gm pre cb s).1 = (status_run X gm pre cb s).1 := by
  rw [← status_run_erase]

theorem run_calls_res (X : Addbp σ Td Lf Pre) (cb : addb_status_callback σ)
    (cs : List (Call Td Lf Pre)) (s : σ) :
    ∀ e ∈ (run_calls X cb cs s).2.2, ∃ s1, e.res = (perform X cb e.call s1).1 := by
  induction cs generalizing s with
  | nil => simp [run_calls]
  | cons c cs ih =>
    simp only [run_calls]
    by_cases h0 : (perform X cb c s).1 = 0
    · intro e he
      simp only [h0, ne_eq, not_true_eq_false, if_false, List.mem_cons] at he
      rcases he with rfl | he
      · exact ⟨s, h0.symm⟩
      · exact ih _ e he
    · intro e he
      simp only [h0, ne_eq, not_false_eq_true, if_true, List.mem_singleton] at he
      subst he
      exact ⟨s, rfl⟩

/-- The invocations of the occupied slots in a complete walk. -/
theorem status_calls_split (X : Addbp σ Td Lf Pre) (gm : addb_gmap Td Lf) (pre : Pre) :
    status_calls X gm pre =
      (((List.range X.ADDB_GMAP_PARTITIONS_MAX).filter fun i =>
          occupied (gm.gm_partition i)).flatMap
        fun i => partition_calls X (gm.gm_partition i)
          (X.cm_prefix_pushf (X.cm_prefix_pushf pre "gmap") (partition_segment i)))
      ++ [.largefile_status gm.gm_lfhandle (X.cm_prefix_pushf pre "gmap")] := rfl

theorem mem_partition_part (X : Addbp σ Td Lf Pre) (gm : addb_gmap Td Lf) (pre : Pre)
    (d : Call Td Lf Pre)
    (hd : d ∈ ((List.range X.ADDB_GMAP_PARTITIONS_MAX).filter fun i =>
          occupied (gm.gm_partition i)).flatMap
        fun i => partition_calls X (gm.gm_partition i)
          (X.cm_prefix_pushf (X.cm_prefix_pushf pre "gmap") (partition_segment i))) :
    ∃ i, i < X.ADDB_GMAP_PARTITIONS_MAX ∧ occupied (gm.gm_partition i) = true ∧
      d ∈ partition_calls X (gm.gm_partition i)
        (X.cm_prefix_pushf (X.cm_prefix_pushf pre "gmap") (partition_segment i)) := by
  rcases List.mem_flatMap.mp hd with ⟨i, hi, hmem⟩
  rw [List.mem_filter, List.mem_range] at hi
  exact ⟨i, hi.1, hi.2, hmem⟩

theorem partition_part_not_largefile (X : Addbp σ Td Lf Pre) (gm : addb_gmap Td Lf) (pre : Pre) :
    ∀ d ∈ ((List.range X.ADDB_GMAP_PARTITIONS_MAX).filter fun i =>
          occupied (gm.gm_partition i)).flatMap
        (fun i => partition_calls X (gm.gm_partition i)
          (X.cm_prefix_pushf (X.cm_prefix_pushf pre "gmap") (partition_segment i))),
      d.is_largefile_status = false := by
  intro d hd
  rcases mem_partition_part X gm pre d hd with ⟨i, -, -, hmem⟩
  simp only [partition_calls, List.mem_cons, List.mem_singleton, List.not_mem_nil, or_false]
    at hmem
  rcases hmem with rfl | rfl | rfl <;> rfl

/-! ### Slots that are not occupied -/

theorem status_from_unoccupied (X : Addbp σ Td Lf Pre) (cb : addb_status_callback σ)
    (gm : addb_gmap Td Lf) (gmap_pre : Pre) (k i : Nat) (s : σ)
    (h : ∀ j, i ≤ j → j < i + k → occupied (gm.gm_partition j) = false) :
    addb_gmap_status_from X gm gmap_pre cb k i s =
      addb_gmap_status_from X gm gmap_pre cb 0 i s := by
  induction k generalizing i with
  | zero => rfl
  | succ k ih =>
    have hi : occupied (gm.gm_partition i) = false := h i (Nat.le_refl _) (by omega)
    have hstep : addb_gmap_status_from X gm gmap_pre cb (k + 1) i s =
        addb_gmap_status_from X gm gmap_pre cb k (i + 1) s := by
      simp [addb_gmap_status_from, occupied_iff, hi]
    rw [hstep, ih (i + 1) (fun j h1 h2 => h j (by omega) (by omega))]
    rfl

theorem status_from_extend (X : Addbp σ Td Lf Pre) (cb : addb_status_callback σ)
    (gm : addb_gmap Td Lf) (gmap_pre : Pre) (n k i : Nat) (s : σ)
    (h : ∀ j, i + n ≤ j → j < i + n + k → occupied (gm.gm_partition j) = false) :
    addb_gmap_status_from X gm gmap_pre cb (n + k) i s =
      addb_gmap_status_from X gm gmap_pre cb n i s := by
  induction n generalizing i s with
  | zero =>
    rw [Nat.zero_add]
    exact status_from_unoccupied X cb gm gmap_pre k i s
      (fun j h1 h2 => h j (by omega) (by omega))
  | succ n ih =>
    have hnk : n + 1 + k = (n + k) + 1 := by omega
    rw [hnk]
    simp only [addb_gmap_status_from]
    have ih2 : ∀ t, addb_gmap_status_from X gm gmap_pre cb (n + k) (i + 1) t =
        addb_gmap_status_from X gm gmap_pre cb n (i + 1) t :=
      fun t => ih (i + 1) t (fun j h1 h2 => h j (by omega) (by omega))
    simp only [ih2]

theorem status_restricted_eq (X : Addbp σ Td Lf Pre) (cb : addb_status_callback σ)
    (gm : addb_gmap Td Lf) (pre : Pre) (s : σ) (hinv : partition_n_invariant X gm) :
    addb_gmap_status X (some gm) pre cb s = addb_gmap_status_restricted X (some gm) pre cb s := by
  simp only [addb_gmap_status, addb_gmap_status_restricted]
  have hsplit : X.ADDB_GMAP_PARTITIONS_MAX =
      gm.gm_partition_n + (X.ADDB_GMAP_PARTITIONS_MAX - gm.gm_partition_n) := by
    have := hinv.1
    omega
  rw [hsplit]
  apply status_from_extend
  intro j h1 h2
  exact hinv.2 j (by omega) (by have := hinv.1; omega)

end CallLemmas

/-! # Lemmas on decimal output -/

section Decimal

theorem digitChar_toNat (d : Nat) (h : d < 10) : (Nat.digitChar d).toNat - '0'.toNat = d := by
  interval_cases d <;> rfl

theorem digitChar_isDigit (d : Nat) (h : d < 10) : (Nat.digitChar d).isDigit = true := by
  interval_cases d <;> rfl

theorem digitChar_ne_zero (d : Nat) (h : d < 10) (h0 : d ≠ 0) : Nat.digitChar d ≠ '0' := by
  interval_cases d <;> first | decide | exact absurd rfl h0

theorem toDigitsCore_foldl (fuel n : Nat) (acc : List Char) (h : n < fuel) :
    (Nat.toDigitsCore 10 fuel n acc).foldl (fun a c => a * 10 + (c.toNat - '0'.toNat)) 0 =
      acc.foldl (fun a c => a * 10 + (c.toNat - '0'.toNat)) n := by
  induction fuel generalizing n acc with
  | zero => omega
  | succ fuel ih =>
    unfold Nat.toDigitsCore
    by_cases h0 : n / 10 = 0
    · have hn : n < 10 := by omega
      simp only [h0, if_true, List.foldl_cons]
      rw [digitChar_toNat _ (Nat.mod_lt _ (by decide)), Nat.mod_eq_of_lt hn]
      simp
    · simp only [h0, if_false]
      rw [ih (n / 10) _ (by omega)]
      simp only [List.foldl_cons]
      rw [digitChar_toNat _ (Nat.mod_lt _ (by decide))]
      congr 1
      omega

theorem toDigitsCore_isDigit (fuel n : Nat) (acc : List Char)
    (hacc : ∀ c ∈ acc, c.isDigit = true) :
    ∀ c ∈ Nat.toDigitsCore 10 fuel n acc, c.isDigit = true := by
  induction fuel generalizing n acc with
  | zero => simpa [Nat.toDigitsCore] using hacc
  | succ fuel ih =>
    unfold Nat.toDigitsCore
    have hd : ∀ c ∈ Nat.digitChar (n % 10) :: acc, c.isDigit = true := by
      intro c hc
      rcases List.mem_cons.mp hc with rfl | hc
      · exact digitChar_isDigit _ (Nat.mod_lt _ (by decide))
      · exact hacc c hc
    by_cases h0 : n / 10 = 0
    · simpa only [h0, if_true] using hd
    · simpa only [h0, if_false] using ih (n / 10) _ hd

theorem toDigitsCore_head (fuel n : Nat) (acc : List Char) (h : n < fuel) (hn : n ≠ 0) :
    ∃ c rest, Nat.toDigitsCore 10 fuel n acc = c :: rest ∧ c ≠ '0' := by
  induction fuel generalizing n acc with
  | zero => omega
  | succ fuel ih =>
    unfold Nat.toDigitsCore
    by_cases h0 : n / 10 = 0
    · have hlt : n < 10 := by omega
      refine ⟨Nat.digitChar (n % 10), acc, by simp [h0], ?_⟩
      rw [Nat.mod_eq_of_lt hlt]
      exact digitChar_ne_zero n hlt hn
    · simp only [h0, if_false]
      exact ih (n / 10) _ (by omega) h0

theorem toDigits_ne_nil (n : Nat) : Nat.toDigits 10 n ≠ [] := by
  unfold Nat.toDigits Nat.toDigitsCore
  by_cases h0 : n / 10 = 0
  · simp [h0]
  · simp only [h0, if_false]
    intro h
    have hl := Nat.toDigitsCore_lens_eq 10 n (n / 10) (Nat.digitChar (n % 10)) []
    rw [h] at hl
    simp at hl

theorem repr_toNat (n : Nat) : (Nat.repr n).toNat? = some n := by
  have hdata : (Nat.repr n).data = Nat.toDigits 10 n := rfl
  have hnat : (Nat.repr n).isNat = true := by
    unfold String.isNat
    rw [Bool.and_eq_true]
    constructor
    · rw [Bool.not_eq_true']
      have hne : ¬ ((Nat.repr n).isEmpty = true) := by
        rw [String.isEmpty_iff]
        intro h
        have h2 : (Nat.repr n).data = [] := by rw [h]
        rw [hdata] at h2
        exact toDigits_ne_nil n h2
      simpa using hne
    · rw [String.all_eq, hdata, List.all_eq_true]
      exact toDigitsCore_isDigit (n + 1) n [] (by simp)
  unfold String.toNat?
  rw [if_pos hnat, String.foldl_eq, hdata]
  unfold Nat.toDigits
  rw [toDigitsCore_foldl (n + 1) n [] (by omega)]
  simp

theorem snprintf_llu_eq_repr (size v : Nat) (hv : v < 2 ^ 64) (hsize : 21 ≤ size) :
    snprintf_llu size v = Nat.repr v := by
  have hlen : (Nat.repr v).length ≤ 20 :=
    Nat.repr_length v 20 (by decide) (lt_of_lt_of_le hv (by norm_num))
  have hlen2 : (Nat.toDigits 10 v).length ≤ size - 1 := by
    have : (Nat.repr v).length = (Nat.toDigits 10 v).length := rfl
    omega
  unfold snprintf_llu
  rw [Nat.mod_eq_of_lt hv, List.take_of_length_le hlen2]
  rfl

theorem partition_segment_eq (i : Nat) (hi : i < 2 ^ 31) :
    partition_segment i = "partition." ++ Nat.repr i := by
  have hmod : i % 2 ^ 32 = i := Nat.mod_eq_of_lt (by omega)
  unfold partition_segment int_of_size_t fmt_d
  rw [hmod, if_pos hi]
  have hneg : ¬ ((i : Int) < 0) := by omega
  rw [if_neg hneg]
  rfl

end Decimal

/-! # The status walk: results and order of invocations -/

section Claims

variable {σ Td Lf Pre : Type}

/-- C1: if an invocation made during `addb_gmap_status` on a non-null store
(a callback for a path or a size, or a delegated walk) returns a nonzero value,
then `addb_gmap_status` returns exactly that value and nothing is invoked after
it: the entry is the last one of the trace. -/
theorem addb_gmap_status_aborts_on_nonzero (X : Addbp σ Td Lf Pre) (gm : addb_gmap Td Lf)
    (pre : Pre) (cb : addb_status_callback σ) (s : σ)
    (before : List (Entry Td Lf Pre)) (e : Entry Td Lf Pre) (rest : List (Entry Td Lf Pre))
    (h : (status_run X (some gm) pre cb s).2.2 = before ++ e :: rest) (he : e.res ≠ 0) :
    (addb_gmap_status X (some gm) pre cb s).1 = e.res ∧ rest = [] := by
  rw [status_run_fst]
  rw [status_run_eq] at h ⊢
  have := run_calls_stops X cb _ s before e rest h he
  exact ⟨this.2, this.1⟩

theorem addb_gmap_status_aborts_on_nonzero_witness :
    (status_run example_env (some example_store) "" failing_cb 0).2.2 =
        [⟨.callback "gmap.partition.0.path" (some "a"), 0⟩,
         ⟨.callback "gmap.partition.0.size" (some "18446744073709551615"), 0⟩,
         ⟨.tiled_status (some 1) "gmap.partition.0.", 0⟩,
         ⟨.callback "gmap.partition.2.path" (some "c"), 0⟩] ++
          ⟨.callback "gmap.partition.2.size" (some "0"), 5⟩ :: [] ∧
      (addb_gmap_status example_env (some example_store) "" failing_cb 0).1 = 5 :=
  ⟨by decide,
    (addb_gmap_status_aborts_on_nonzero example_env example_store "" failing_cb 0
      [⟨.callback "gmap.partition.0.path" (some "a"), 0⟩,
       ⟨.callback "gmap.partition.0.size" (some "18446744073709551615"), 0⟩,
       ⟨.tiled_status (some 1) "gmap.partition.0.", 0⟩,
       ⟨.callback "gmap.partition.2.path" (some "c"), 0⟩]
      ⟨.callback "gmap.partition.2.size" (some "0"), 5⟩ [] (by decide) (by decide)).1⟩

/-- C4: with a null store handle, `addb_gmap_status` and
`addb_gmap_status_tiles` return `EINVAL`, leave the callback state as it was
and invoke nothing: the trace is empty, for every prefix, callback and callback
state. -/
theorem addb_gmap_status_null_handle (X : Addbp σ Td Lf Pre) (pre : Pre)
    (cb : addb_status_callback σ) (s : σ) :
    addb_gmap_status X none pre cb s = (EINVAL, s) ∧
      addb_gmap_status_tiles X none pre cb s = (EINVAL, s) ∧
      status_run X none pre cb s = (EINVAL, (s, [])) ∧
      status_tiles_run X none pre cb s = (EINVAL, (s, [])) ∧
      EINVAL ≠ 0 :=
  ⟨rfl, rfl, rfl, rfl, by decide⟩

/-- C5: `addb_gmap_status` returns 0 exactly when the handle is non-null and
everything it invoked (callbacks, per-partition tile-manager walks, the final
large-file walk) returned 0, and then the complete walk was made. When every
per-partition step returned 0, the large-file status walk is invoked once, as
the last step, under the store-level prefix, and its result is the result of
`addb_gmap_status`. -/
theorem addb_gmap_status_result (X : Addbp σ Td Lf Pre) (gm : Option (addb_gmap Td Lf))
    (pre : Pre) (cb : addb_status_callback σ) (s : σ) :
    ((addb_gmap_status X gm pre cb s).1 = 0 ↔
        ∃ g, gm = some g ∧ ∀ e ∈ (status_run X gm pre cb s).2.2, e.res = 0) ∧
      (∀ g, gm = some g → (addb_gmap_status X gm pre cb s).1 = 0 →
        (status_run X gm pre cb s).2.2 = (status_calls X g pre).map fun c => ⟨c, 0⟩) ∧
      (∀ g, gm = some g →
        (∀ e ∈ (status_run X gm pre cb s).2.2, e.call.is_largefile_status = false → e.res = 0) →
        ∃ init, (status_run X gm pre cb s).2.2 =
            init ++ [⟨.largefile_status g.gm_lfhandle (X.cm_prefix_pushf pre "gmap"),
              (addb_gmap_status X gm pre cb s).1⟩] ∧
          ∀ e ∈ init, e.call.is_largefile_status = false ∧ e.res = 0) := by
  cases gm with
  | none =>
    refine ⟨⟨fun h => ?_, fun h => ?_⟩, fun g hg => ?_, fun g hg => ?_⟩
    · have h2 : EINVAL = 0 := h
      exact absurd h2 (by decide)
    · rcases h with ⟨g, hg, -⟩
      cases hg
    · cases hg
    · cases hg
  | some g0 =>
    rw [status_run_fst, status_run_eq]
    refine ⟨⟨fun h => ⟨g0, rfl, (run_calls_zero_iff X cb _ s).mp h⟩, fun h => ?_⟩,
      fun g hg h => ?_, fun g hg h => ?_⟩
    · rcases h with ⟨g, -, hall⟩
      exact (run_calls_zero_iff X cb _ s).mpr hall
    · cases hg
      exact run_calls_zero_log X cb _ s h
    · cases hg
      rw [status_calls_split] at h ⊢
      have hlog := run_calls_reaches_last X cb Call.is_largefile_status _ _ s
        (partition_part_not_largefile X g0 pre) h
      refine ⟨_, hlog, fun e he => ?_⟩
      rcases List.mem_map.mp he with ⟨d, hd, rfl⟩
      exact ⟨partition_part_not_largefile X g0 pre d hd, rfl⟩

theorem addb_gmap_status_result_witness :
    (addb_gmap_status example_env (some example_store) "" ok_cb 0).1 = 0 ∧
      (addb_gmap_status example_env (some example_store) "" failing_cb 0).1 ≠ 0 :=
  ⟨(addb_gmap_status_result example_env (some example_store) "" ok_cb 0).1.mpr
      ⟨example_store, rfl, by decide⟩,
    fun h => absurd
      (((addb_gmap_status_result example_env (some example_store) "" failing_cb 0).1.mp h).elim
        fun _ hg => hg.2 ⟨.callback "gmap.partition.2.size" (some "0"), 5⟩ (by decide))
      (by decide)⟩

/-- C2: on a non-null store, when the callback and the tile-manager status
walks always return 0, `addb_gmap_status` visits exactly the occupied slots
(path and tile handle both non-null) in ascending index order; for each it
invokes the callback with the name for `path` and the path, then with the name
for `size` and the printed virtual size, then delegates once to the tile
manager; after the last slot comes the large-file walk. Nothing else is
invoked, so a slot that is not occupied produces no invocation. -/
theorem addb_gmap_status_reports_occupied (X : Addbp σ Td Lf Pre) (gm : addb_gmap Td Lf)
    (pre : Pre) (cb : addb_status_callback σ) (s : σ)
    (hcb : ∀ t name value, (cb t name value).1 = 0)
    (htd : ∀ td p t, (X.addb_tiled_status td p cb t).1 = 0) :
    (status_run X (some gm) pre cb s).2.2 =
      (((List.range X.ADDB_GMAP_PARTITIONS_MAX).filter fun i =>
          (gm.gm_partition i).part_path.isSome && (gm.gm_partition i).part_td.isSome).flatMap
        fun i =>
          [⟨.callback
              (X.cm_prefix_end
                (X.cm_prefix_pushf (X.cm_prefix_pushf pre "gmap") (partition_segment i)) "path")
              (gm.gm_partition i).part_path, 0⟩,
           ⟨.callback
              (X.cm_prefix_end
                (X.cm_prefix_pushf (X.cm_prefix_pushf pre "gmap") (partition_segment i)) "size")
              (some (snprintf_llu 42 (gm.gm_partition i).part_size)), 0⟩,
           ⟨.tiled_status (gm.gm_partition i).part_td
              (X.cm_prefix_pushf (X.cm_prefix_pushf pre "gmap") (partition_segment i)), 0⟩])
      ++ [⟨.largefile_status gm.gm_lfhandle (X.cm_prefix_pushf pre "gmap"),
            (addb_gmap_status X (some gm) pre cb s).1⟩] := by
  rw [status_run_fst, status_run_eq, status_calls_split]
  have hzero : ∀ e ∈ (run_calls X cb
      ((((List.range X.ADDB_GMAP_PARTITIONS_MAX).filter fun i =>
          occupied (gm.gm_partition i)).flatMap
        fun i => partition_calls X (gm.gm_partition i)
          (X.cm_prefix_pushf (X.cm_prefix_pushf pre "gmap") (partition_segment i)))
      ++ [.largefile_status gm.gm_lfhandle (X.cm_prefix_pushf pre "gmap")]) s).2.2,
      e.call.is_largefile_status = false → e.res = 0 := by
    intro e he hnot
    rcases run_calls_res X cb _ s e he with ⟨s1, hres⟩
    have hmem := run_calls_mem X cb _ s e he
    rw [List.mem_append] at hmem
    rcases hmem with hmem | hmem
    · rcases mem_partition_part X gm pre _ hmem with ⟨i, -, -, hpc⟩
      simp only [partition_calls, List.mem_cons, List.mem_singleton, List.not_mem_nil,
        or_false] at hpc
      rcases hpc with hc | hc | hc <;> rw [hres, hc]
      · exact hcb _ _ _
      · exact hcb _ _ _
      · exact htd _ _ _
    · rw [List.mem_singleton] at hmem
      rw [hmem] at hnot
      exact absurd hnot (by simp [Call.is_largefile_status])
  rw [run_calls_reaches_last X cb Call.is_largefile_status _ _ s
    (partition_part_not_largefile X gm pre) hzero]
  simp [List.map_flatMap, partition_calls, occupied]

theorem addb_gmap_status_reports_occupied_witness :
    (status_run example_env (some example_store) "" ok_cb 0).2.2 =
      [⟨.callback "gmap.partition.0.path" (some "a"), 0⟩,
       ⟨.callback "gmap.partition.0.size" (some "18446744073709551615"), 0⟩,
       ⟨.tiled_status (some 1) "gmap.partition.0.", 0⟩,
       ⟨.callback "gmap.partition.2.path" (some "c"), 0⟩,
       ⟨.callback "gmap.partition.2.size" (some "0"), 0⟩,
       ⟨.tiled_status (some 3) "gmap.partition.2.", 0⟩,
       ⟨.largefile_status 9 "gmap.", 0⟩] :=
  (addb_gmap_status_reports_occupied example_env example_store "" ok_cb 0
    (fun _ _ _ => rfl) (fun _ _ _ => rfl)).trans (by decide)

/-- C8: under the store invariant that no slot at or above the partition count
is occupied, the scan of `addb_gmap_status` over all `ADDB_GMAP_PARTITIONS_MAX`
slots has the same result, the same final callback state and the same trace
of callback invocations and delegated walks as the walk restricted to the
slots below the partition count. -/
theorem addb_gmap_status_scan_eq_restricted (X : Addbp σ Td Lf Pre) (gm : addb_gmap Td Lf)
    (pre : Pre) (cb : addb_status_callback σ) (s : σ) (hinv : partition_n_invariant X gm) :
    addb_gmap_status X (some gm) pre cb s = addb_gmap_status_restricted X (some gm) pre cb s ∧
      status_run X (some gm) pre cb s =
        addb_gmap_status_restricted (traced X cb) (some gm) pre (traced_cb cb) (s, []) :=
  ⟨status_restricted_eq X cb gm pre s hinv,
    status_restricted_eq (traced X cb) (traced_cb cb) gm pre (s, []) hinv⟩

theorem addb_gmap_status_scan_eq_restricted_witness :
    partition_n_invariant example_env example_store ∧
      addb_gmap_status_restricted example_env (some example_store) "" failing_cb 0 = (5, 5) ∧
      addb_gmap_status example_env (some example_store) "" failing_cb 0 = (5, 5) :=
  have hinv : partition_n_invariant example_env example_store :=
    ⟨by decide, fun i h1 h2 => by
      have h3 : example_env.ADDB_GMAP_PARTITIONS_MAX = 4 := rfl
      have h4 : example_store.gm_partition_n = 3 := rfl
      have hi : i = 3 := by omega
      subst hi
      rfl⟩
  ⟨hinv, by decide,
    (addb_gmap_status_scan_eq_restricted example_env example_store "" failing_cb 0 hinv).1.trans
      (by decide)⟩

/-- C7: `addb_gmap_status_partition` first invokes the callback for `path`;
when that returns 0 its second invocation is the callback for `size`, and for
a virtual size `s < 2^64` the value string passed there is the complete
decimal representation of `s`: the 42-byte buffer does not cut it (it has at
most 20 characters), it starts with `0` only when `s = 0`, and reading it back
as a decimal natural number gives `s`. No other second invocation is
possible. -/
theorem addb_gmap_status_partition_size_value (X : Addbp σ Td Lf Pre)
    (part : addb_gmap_partition Td) (pre : Pre) (cb : addb_status_callback σ) (s : σ)
    (hs : part.part_size < 2 ^ 64) :
    (addb_gmap_status_partition (traced X cb) part pre (traced_cb cb) (s, [])).2.2[0]? =
        some ⟨.callback (X.cm_prefix_end pre "path") part.part_path,
          (cb s (X.cm_prefix_end pre "path") part.part_path).1⟩ ∧
      ((cb s (X.cm_prefix_end pre "path") part.part_path).1 = 0 →
        (addb_gmap_status_partition (traced X cb) part pre (traced_cb cb) (s, [])).2.2[1]? =
          some ⟨.callback (X.cm_prefix_end pre "size") (some (Nat.repr part.part_size)),
            (cb (cb s (X.cm_prefix_end pre "path") part.part_path).2
              (X.cm_prefix_end pre "size") (some (Nat.repr part.part_size))).1⟩) ∧
      (∀ e, (addb_gmap_status_partition (traced X cb) part pre (traced_cb cb) (s, [])).2.2[1]?
          = some e →
        e.call = .callback (X.cm_prefix_end pre "size")
          (some (snprintf_llu 42 part.part_size))) ∧
      snprintf_llu 42 part.part_size = Nat.repr part.part_size ∧
      (snprintf_llu 42 part.part_size).length ≤ 20 ∧
      ((snprintf_llu 42 part.part_size).data.head? = some '0' → part.part_size = 0) ∧
      (snprintf_llu 42 part.part_size).toNat? = some part.part_size := by
  have hrepr := snprintf_llu_eq_repr 42 part.part_size hs (by decide)
  refine ⟨?_, ?_, ?_, hrepr, ?_, ?_, ?_⟩
  · rw [status_partition_traced]
    simp only [after, List.nil_append, partition_calls, run_calls, perform]
    by_cases h1 : (cb s (X.cm_prefix_end pre "path") part.part_path).1 = 0
    · simp [h1]
    · simp [h1]
  · intro h1
    rw [status_partition_traced]
    simp only [after, List.nil_append, partition_calls, run_calls, perform, hrepr]
    by_cases h2 : (cb (cb s (X.cm_prefix_end pre "path") part.part_path).2
        (X.cm_prefix_end pre "size") (some (Nat.repr part.part_size))).1 = 0
    · simp [h1, h2]
    · simp [h1, h2]
  · intro e he
    rw [status_partition_traced] at he
    simp only [after, List.nil_append, partition_calls, run_calls, perform] at he
    by_cases h1 : (cb s (X.cm_prefix_end pre "path") part.part_path).1 = 0
    · by_cases h2 : (cb (cb s (X.cm_prefix_end pre "path") part.part_path).2
          (X.cm_prefix_end pre "size") (some (snprintf_llu 42 part.part_size))).1 = 0
      · simp only [h1, h2, ne_eq, not_true_eq_false, if_false] at he
        simp only [List.getElem?_cons_succ, List.getElem?_cons_zero, Option.some.injEq] at he
        rw [← he]
      · simp only [h1, h2, ne_eq, not_true_eq_false, not_false_eq_true, if_false, if_true] at he
        simp only [List.getElem?_cons_succ, List.getElem?_cons_zero, Option.some.injEq] at he
        rw [← he]
    · simp [h1] at he
  · rw [hrepr]
    exact Nat.repr_length _ 20 (by decide) (lt_of_lt_of_le hs (by norm_num))
  · rw [hrepr]
    intro hhead
    by_contra hne
    rcases toDigitsCore_head (part.part_size + 1) part.part_size [] (by omega) hne with
      ⟨c, rest, hc, hc0⟩
    have hdata : (Nat.repr part.part_size).data = c :: rest := hc
    rw [hdata] at hhead
    simp only [List.head?_cons, Option.some.injEq] at hhead
    exact hc0 hhead
  · rw [hrepr]
    exact repr_toNat _

theorem addb_gmap_status_partition_size_value_witness :
    (addb_gmap_status_partition (traced example_env ok_cb)
          ⟨some "a", some 1, 18446744073709551615⟩ "gmap.partition.0." (traced_cb ok_cb)
          (0, ([] : List (Entry Nat Nat String)))).2.2[1]? =
        some ⟨.callback "gmap.partition.0.size" (some "18446744073709551615"), 0⟩ ∧
      snprintf_llu 42 18446744073709551615 = "18446744073709551615" ∧
      (snprintf_llu 42 18446744073709551615).toNat? = some 18446744073709551615 :=
  have h := addb_gmap_status_partition_size_value example_env
    ⟨some "a", some 1, 18446744073709551615⟩ "gmap.partition.0." ok_cb 0 (by decide)
  ⟨(h.2.1 rfl).trans (by decide), by decide, h.2.2.2.2.2.2⟩

/-- C3: with the dotted names of the spec for `cm_prefix_pushf` and
`cm_prefix_end`, every name `addb_gmap_status` passes to the callback is the
caller's prefix, then the store segment `gmap`, then the segment
`partition.<i>` with the index of an occupied slot in decimal without padding,
then the field `path` or `size`, the segments separated by dots; the value is
the path, respectively the printed size, of that slot. When the walk returns 0
both names of every occupied slot were reported. The size of the partition at
index 2 is reported under a name that ends in `partition.2.size`. -/
theorem addb_gmap_status_names (X : Addbp σ Td Lf String) (gm : addb_gmap Td Lf)
    (pre : String) (cb : addb_status_callback σ) (s : σ)
    (hpushf : X.cm_prefix_pushf = dotted_pushf) (hend : X.cm_prefix_end = dotted_end)
    (hmax : X.ADDB_GMAP_PARTITIONS_MAX ≤ 2 ^ 31) :
    (∀ e ∈ (status_run X (some gm) pre cb s).2.2, ∀ name value,
        e.call = .callback name value →
        ∃ i, i < X.ADDB_GMAP_PARTITIONS_MAX ∧ occupied (gm.gm_partition i) = true ∧
          ((name = pre ++ "gmap" ++ "." ++ ("partition." ++ Nat.repr i) ++ "." ++ "path" ∧
              value = (gm.gm_partition i).part_path) ∨
            (name = pre ++ "gmap" ++ "." ++ ("partition." ++ Nat.repr i) ++ "." ++ "size" ∧
              value = some (snprintf_llu 42 (gm.gm_partition i).part_size)))) ∧
      ((addb_gmap_status X (some gm) pre cb s).1 = 0 →
        ∀ i, i < X.ADDB_GMAP_PARTITIONS_MAX → occupied (gm.gm_partition i) = true →
          (⟨.callback (pre ++ "gmap" ++ "." ++ ("partition." ++ Nat.repr i) ++ "." ++ "path")
              (gm.gm_partition i).part_path, 0⟩ : Entry Td Lf String) ∈
            (status_run X (some gm) pre cb s).2.2 ∧
          (⟨.callback (pre ++ "gmap" ++ "." ++ ("partition." ++ Nat.repr i) ++ "." ++ "size")
              (some (snprintf_llu 42 (gm.gm_partition i).part_size)), 0⟩ : Entry Td Lf String) ∈
            (status_run X (some gm) pre cb s).2.2) ∧
      "partition.2.size".data <:+
        (pre ++ "gmap" ++ "." ++ ("partition." ++ Nat.repr 2) ++ "." ++ "size").data := by
  have hname : ∀ i, i < X.ADDB_GMAP_PARTITIONS_MAX → ∀ field,
      X.cm_prefix_end
          (X.cm_prefix_pushf (X.cm_prefix_pushf pre "gmap") (partition_segment i)) field =
        pre ++ "gmap" ++ "." ++ ("partition." ++ Nat.repr i) ++ "." ++ field := by
    intro i hi field
    rw [hpushf, hend, partition_segment_eq i (by omega)]
    rfl
  refine ⟨?_, ?_, ?_⟩
  · intro e he name value hcall
    rw [status_run_eq, status_calls_split] at he
    have hmem := run_calls_mem X cb _ s e he
    rw [hcall, List.mem_append] at hmem
    rcases hmem with hmem | hmem
    · rcases mem_partition_part X gm pre _ hmem with ⟨i, hi, hocc, hpc⟩
      refine ⟨i, hi, hocc, ?_⟩
      simp only [partition_calls, List.mem_cons, List.mem_singleton, List.not_mem_nil,
        or_false, Call.callback.injEq, hname i hi, reduceCtorEq] at hpc
      exact hpc
    · simp at hmem
  · intro hret i hi hocc
    rw [status_run_fst, status_run_eq] at hret
    rw [status_run_eq, run_calls_zero_log X cb _ s hret, status_calls_split]
    have hin : i ∈ (List.range X.ADDB_GMAP_PARTITIONS_MAX).filter fun i =>
        occupied (gm.gm_partition i) := by
      rw [List.mem_filter, List.mem_range]
      exact ⟨hi, hocc⟩
    constructor
    · refine List.mem_map.mpr ⟨_, List.mem_append_left _
        (List.mem_flatMap.mpr ⟨i, hin, ?_⟩), rfl⟩
      rw [← hname i hi "path"]
      simp [partition_calls]
    · refine List.mem_map.mpr ⟨_, List.mem_append_left _
        (List.mem_flatMap.mpr ⟨i, hin, ?_⟩), rfl⟩
      rw [← hname i hi "size"]
      simp [partition_calls]
  · refine ⟨(pre ++ "gmap" ++ ".").data, ?_⟩
    simp only [String.data_append]
    have h2 : (Nat.repr 2).data = ['2'] := by decide
    rw [h2]
    simp

theorem addb_gmap_status_names_witness :
    (⟨.callback ("" ++ "gmap" ++ "." ++ ("partition." ++ Nat.repr 2) ++ "." ++ "size")
        (some (snprintf_llu 42 (example_store.gm_partition 2).part_size)), 0⟩ : Entry Nat Nat String) ∈
      (status_run example_env (some example_store) "" ok_cb 0).2.2 :=
  ((addb_gmap_status_names example_env example_store "" ok_cb 0 rfl rfl (by decide)).2.1
    (by decide) 2 (by decide) (by decide)).2

/-- C9: the code does not do what the claim says. On a store whose slot 1 has
a path and no tile manager, `addb_gmap_status_tiles` hands the tile walk the
null handle of slot 1, while `addb_gmap_status` skips that slot. -/
theorem addb_gmap_status_tiles_visits_unopened :
    (status_tiles_run example_env (some unopened_store) "" ok_cb 0).2.2 =
        [⟨.tiled_status_tiles (some 1) "gmap.partition.0.", 0⟩,
         ⟨.tiled_status_tiles none "gmap.partition.1.", 0⟩,
         ⟨.largefile_status_tiles 9 "gmap.", 0⟩] ∧
      (status_run example_env (some unopened_store) "" ok_cb 0).2.2 =
        [⟨.callback "gmap.partition.0.path" (some "a"), 0⟩,
         ⟨.callback "gmap.partition.0.size" (some "12"), 0⟩,
         ⟨.tiled_status (some 1) "gmap.partition.0.", 0⟩,
         ⟨.largefile_status 9 "gmap.", 0⟩] := by
  decide

end Claims

/-! # The horizon accessors -/

/-- C6: setting the horizon is rejected with ProtocolError for every caller
other than store-open/recovery and `finish_backup`: `addb_smap_horizon_set`
reports the protocol violation and leaves the store, and so the horizon that
`addb_smap_horizon` returns, unchanged. For the two permitted callers nothing
is reported and the horizon becomes the given value. -/
theorem addb_smap_horizon_set_rejects_other_callers {Td : Type} (caller : horizon_caller)
    (sm : addb_smap Td) (horizon : Nat) :
    (caller ≠ horizon_caller.store_open_recovery → caller ≠ horizon_caller.finish_backup →
        (addb_smap_horizon_set caller sm horizon).2 = some addb_error.ProtocolError ∧
          (addb_smap_horizon_set caller sm horizon).1 = sm ∧
          addb_smap_horizon (addb_smap_horizon_set caller sm horizon).1 =
            addb_smap_horizon sm) ∧
      (caller = horizon_caller.store_open_recovery ∨ caller = horizon_caller.finish_backup →
        (addb_smap_horizon_set caller sm horizon).2 = none ∧
          addb_smap_horizon (addb_smap_horizon_set caller sm horizon).1 = horizon) := by
  constructor
  · intro h1 h2
    have hp : horizon_set_permitted caller = false := by
      cases caller <;> first | rfl | exact absurd rfl h1 | exact absurd rfl h2
    simp [addb_smap_horizon_set, hp]
  · intro h
    have hp : horizon_set_permitted caller = true := by
      rcases h with h | h <;> rw [h] <;> rfl
    simp [addb_smap_horizon_set, addb_smap_horizon, hp]

theorem addb_smap_horizon_set_rejects_other_callers_witness :
    (addb_smap_horizon_set horizon_caller.rollback example_smap 7).2 =
        some addb_error.ProtocolError ∧
      addb_smap_horizon (addb_smap_horizon_set horizon_caller.rollback example_smap 7).1 = 3 ∧
      addb_smap_horizon (addb_smap_horizon_set horizon_caller.finish_backup example_smap 7).1
        = 7 :=
  have h := (addb_smap_horizon_set_rejects_other_callers horizon_caller.rollback
    example_smap 7).1 (by decide) (by decide)
  ⟨h.1, h.2.2.trans rfl,
    ((addb_smap_horizon_set_rejects_other_callers horizon_caller.finish_backup
      example_smap 7).2 (Or.inr rfl)).2⟩

end Addb
